import Mathlib

/-!
Shallow embedding of the proposal-tracking dashboard's derived-view pipeline
(search → filter → sort → paginate → bulk-select) and record operations.

Sources embedded:
* `src/src/components/ProposalsTable.tsx` — `filteredProposals`, `sortedProposals`,
  pagination, `toggleSelectAll`, `getDaysSinceFollowUp`, `handleSort`;
* `src/src/components/Dashboard.tsx` — `needsFollowUp`, `getDaysSinceFollowUp`;
* `src/src/pages/Index.tsx` — `handleDeleteProposal`;
* `src/unnamed/part_000` — the `Proposal` / `ProposalStatus` types.

Modelling conventions:
* JavaScript strings are modelled as `List Char` (`JSString`);
  `String.prototype.toLowerCase` as a per-character lowering, and
  `String.prototype.includes` as contiguous-sublist containment.
* JavaScript numbers (monetary values) and `Date` timestamps (epoch
  milliseconds) are modelled as `Int`; the claims under study only exercise
  their ordering, never fractional arithmetic.
* The text typed into a numeric/date filter input is classified by the result
  of its JavaScript conversion (`Number(...)` / `new Date(...)`): empty
  (falsy, so the bound is never applied), a finite number/valid date, or
  NaN / Invalid Date.  Any JS `>=`/`<=` comparison against NaN is `false`.
* `Array.prototype.sort` with a consistent comparator is a stable sort
  (ECMAScript 2019), and `SortCompare` maps a NaN comparator result to `+0`;
  it is modelled by `List.mergeSort` on the predicate `comparator ≤ 0`.
  The comparator's `Infinity`/`NaN` arithmetic (absent `expectedReturnDate`
  dates) is modelled by sign-equivalent integers, noted at the definition.
-/

/-- A JavaScript string, modelled as its sequence of characters. -/
abbrev JSString := List Char

/-- `ProposalStatus` from `src/unnamed/part_000`:
`"pending" | "approved" | "rejected"`. -/
inductive ProposalStatus where
  | pending
  | approved
  | rejected
deriving DecidableEq

/-- The `Proposal` record type (`src/unnamed/part_000`, extended with the
`sentVia` field read by `ProposalsTable.tsx`).  Dates are epoch-millisecond
integers; `expectedReturnDate` is the optional field (`Date | undefined`). -/
structure Proposal where
  id : JSString
  clientName : JSString
  sentDate : Int
  value : Int
  status : ProposalStatus
  lastFollowUp : Int
  expectedReturnDate : Option Int
  sentVia : Option JSString
  notes : JSString
deriving DecidableEq

/-- `hay.startsWith needle` character by character (the anchored step of the
JS `includes` scan). -/
def startsWith : JSString → JSString → Bool
  | _, [] => true
  | [], _ :: _ => false
  | a :: as, b :: bs => a == b && startsWith as bs

/-- JavaScript `hay.includes(needle)`: `needle` occurs as a contiguous
substring of `hay` (the empty needle always matches). -/
def jsIncludes : JSString → JSString → Bool
  | [], needle => startsWith [] needle
  | hay@(_ :: t), needle => startsWith hay needle || jsIncludes t needle

/-- JavaScript `s.toLowerCase()`, modelled per character. -/
def toLowerCase (s : JSString) : JSString := s.map Char.toLower

/-- The text of one numeric filter input (`valueMin` / `valueMax` in
`ProposalsTable.tsx`), classified by its JavaScript `Number(...)` conversion:
the empty string (falsy, bound skipped), a string converting to a finite
number, or a string converting to NaN. -/
inductive NumInput where
  | empty
  | num (n : Int)
  | nan
deriving DecidableEq

/-- JavaScript string truthiness: only the empty string is falsy. -/
def NumInput.isTruthy : NumInput → Bool
  | .empty => false
  | _ => true

/-- `Number(input)`, with `none` standing for NaN (`Number("") = 0`). -/
def NumInput.toNumber : NumInput → Option Int
  | .empty => some 0
  | .num n => some n
  | .nan => none

/-- The text of one date filter input (`dateStart` / `dateEnd`), classified by
its JavaScript `new Date(...)` conversion: empty (falsy, bound skipped), a
valid date with the given timestamp, or an Invalid Date. -/
inductive DateInput where
  | empty
  | date (t : Int)
  | invalid
deriving DecidableEq

/-- JavaScript string truthiness for a date input. -/
def DateInput.isTruthy : DateInput → Bool
  | .empty => false
  | _ => true

/-- The timestamp `new Date(input).getTime()`, with `none` standing for NaN
(both the empty string and malformed text yield an Invalid Date). -/
def DateInput.toTime : DateInput → Option Int
  | .empty => none
  | .date t => some t
  | .invalid => none

/-- JavaScript `x >= y` where `y` may be NaN (`none`): every comparison
against NaN is `false`. -/
def jsGe (x : Int) : Option Int → Bool
  | some n => x ≥ n
  | none => false

/-- JavaScript `x <= y` where `y` may be NaN (`none`). -/
def jsLe (x : Int) : Option Int → Bool
  | some n => x ≤ n
  | none => false

/-- The predicate of `filteredProposals` (`ProposalsTable.tsx` lines 134–154):
`matchesSearch && matchesDate && matchesValue`, where each bound is applied
only when its input text is truthy, and dates/values compare through the JS
conversions above. -/
def filterPred (searchTerm : JSString) (dateStart dateEnd : DateInput)
    (valueMin valueMax : NumInput) (proposal : Proposal) : Bool :=
  let matchesSearch := jsIncludes (toLowerCase proposal.clientName) (toLowerCase searchTerm)
  let matchesDate :=
    (if dateStart.isTruthy then jsGe proposal.sentDate dateStart.toTime else true) &&
    (if dateEnd.isTruthy then jsLe proposal.sentDate dateEnd.toTime else true)
  let matchesValue :=
    (if valueMin.isTruthy then jsGe proposal.value valueMin.toNumber else true) &&
    (if valueMax.isTruthy then jsLe proposal.value valueMax.toNumber else true)
  matchesSearch && matchesDate && matchesValue

/-- `filteredProposals = proposals.filter(...)` (`ProposalsTable.tsx` 134). -/
def filteredProposals (searchTerm : JSString) (dateStart dateEnd : DateInput)
    (valueMin valueMax : NumInput) (proposals : List Proposal) : List Proposal :=
  proposals.filter (filterPred searchTerm dateStart dateEnd valueMin valueMax)

/-- Injects an optional date bound (the claim-side control state) into the
code's classification of the date input text. -/
def toDateInput : Option Int → DateInput
  | none => .empty
  | some t => .date t

/-- Injects an optional numeric bound (the claim-side control state) into the
code's classification of the numeric input text. -/
def toNumInput : Option Int → NumInput
  | none => .empty
  | some n => .num n

/-- `handleDeleteProposal` (`Index.tsx` 69–71):
`proposals.filter((p) => p.id !== id)`. -/
def handleDeleteProposal (id : JSString) (proposals : List Proposal) : List Proposal :=
  proposals.filter (fun p => p.id != id)

/-- `toggleSelectAll` (`ProposalsTable.tsx` 187–193): checking the header box
replaces the selection with the ids of the currently visible page; unchecking
clears it.  The previous selection is not consulted. -/
def toggleSelectAll (checked : Bool) (paginatedProposals : List Proposal)
    (selectedIds : List JSString) : List JSString :=
  if checked then paginatedProposals.map (fun p => p.id) else []

/-- The page size constant `itemsPerPage` (`ProposalsTable.tsx` 56). -/
def itemsPerPage : Nat := 100

/-- `totalPages = Math.ceil(length / itemsPerPage)` (`ProposalsTable.tsx` 183),
with the page size kept as the parameter `k` and the ceiling of the exact
quotient computed by natural ceiling division. -/
def totalPages (k n : Nat) : Nat := (n + (k - 1)) / k

/-- `paginatedProposals = sorted.slice((currentPage-1)*k, ... + k)`
(`ProposalsTable.tsx` 184–185). -/
def paginatedProposals (k currentPage : Nat) (sorted : List Proposal) : List Proposal :=
  (sorted.drop ((currentPage - 1) * k)).take k

/-- The `SortField` union type (`ProposalsTable.tsx` 38). -/
inductive SortField where
  | status
  | lastFollowUp
  | expectedReturnDate
  | value
  | sentDate
  | clientName
deriving DecidableEq

/-- The `SortDirection` union type (`ProposalsTable.tsx` 39). -/
inductive SortDirection where
  | asc
  | desc
deriving DecidableEq

/-- The `statusOrder` ranking inside the comparator
(`ProposalsTable.tsx` 162): `{ pending: 0, approved: 1, rejected: 2 }`. -/
def statusOrder : ProposalStatus → Int
  | .pending => 0
  | .approved => 1
  | .rejected => 2

/-- Model of `a.localeCompare(b)` (`ProposalsTable.tsx` 176): a sign value in
`{-1, 0, 1}` from lexicographic comparison of character codes (the default
locale collation is modelled by code-unit order; only the sign is consumed by
the sort). -/
def localeCompare : JSString → JSString → Int
  | [], [] => 0
  | [], _ :: _ => -1
  | _ :: _, [] => 1
  | a :: as, b :: bs =>
    if a.toNat < b.toNat then -1
    else if b.toNat < a.toNat then 1
    else localeCompare as bs

/-- The `expectedReturnDate` branch of the comparator
(`ProposalsTable.tsx` 166–169): the code computes
`(a ?? Infinity) - (b ?? Infinity)`.  The resulting `-Infinity` / `+Infinity`
are modelled by the sign-equivalent integers `-1` / `1`, and the both-absent
case `Infinity - Infinity = NaN` by `0`, which is exactly how ECMAScript
`SortCompare` treats a NaN comparator result. -/
def returnDateComparison : Option Int → Option Int → Int
  | some x, some y => x - y
  | some _, none => -1
  | none, some _ => 1
  | none, none => 0

/-- The field dispatch of the comparator (`ProposalsTable.tsx` 161–177). -/
def proposalComparison (sortField : SortField) (a b : Proposal) : Int :=
  match sortField with
  | .status => statusOrder a.status - statusOrder b.status
  | .lastFollowUp => a.lastFollowUp - b.lastFollowUp
  | .expectedReturnDate => returnDateComparison a.expectedReturnDate b.expectedReturnDate
  | .value => a.value - b.value
  | .sentDate => a.sentDate - b.sentDate
  | .clientName => localeCompare a.clientName b.clientName

/-- The returned comparator value
`sortDirection === "asc" ? comparison : -comparison`, with `comparison = 0`
when no sort field is active (`ProposalsTable.tsx` 158, 179). -/
def signedComparison (sortField : Option SortField) (sortDirection : SortDirection)
    (a b : Proposal) : Int :=
  match sortField with
  | none => 0
  | some f =>
    match sortDirection with
    | .asc => proposalComparison f a b
    | .desc => -(proposalComparison f a b)

/-- `sortedProposals = [...filteredProposals].sort(comparator)`
(`ProposalsTable.tsx` 157–180): a stable sort placing `a` no later than `b`
whenever the comparator is `≤ 0`. -/
def sortedProposals (sortField : Option SortField) (sortDirection : SortDirection)
    (proposals : List Proposal) : List Proposal :=
  proposals.mergeSort (fun a b => signedComparison sortField sortDirection a b ≤ 0)

/-- `getDaysSinceFollowUp` (`ProposalsTable.tsx` 103–107, identical in
`Dashboard.tsx` 181–187): `Math.ceil(Math.abs(today - date) / 86400000)`,
computed by natural ceiling division on the millisecond difference. -/
def getDaysSinceFollowUp (today date : Int) : Nat :=
  ((today - date).natAbs + (86400000 - 1)) / 86400000

/-- `needsFollowUp` (`Dashboard.tsx` 189–193):
`status === "pending" && getDaysSinceFollowUp(lastFollowUp) > 7`. -/
def needsFollowUp (today : Int) (proposal : Proposal) : Bool :=
  proposal.status == .pending && getDaysSinceFollowUp today proposal.lastFollowUp > 7

/-- Modelled from the spec: no return-date classification code exists under
`src/` (spec §4.1 step 4 is the only description).  `daysUntilReturn =
ceil((expectedReturnDate - now) / 1 day)`, computed as the integer ceiling
division `⌊(diff + day - 1) / day⌋` (`Int` division by a positive divisor is
floor division). -/
def daysUntilReturn (now expectedReturnDate : Int) : Int :=
  (expectedReturnDate - now + (86400000 - 1)) / 86400000

/-- Modelled from the spec: `isOverdue = daysUntilReturn < 0` (§4.1 step 4). -/
def isOverdue (now expectedReturnDate : Int) : Bool :=
  daysUntilReturn now expectedReturnDate < 0

/-- Modelled from the spec: `isReturnSoon = 0 <= daysUntilReturn <= 3`
(§4.1 step 4). -/
def isReturnSoon (now expectedReturnDate : Int) : Bool :=
  0 ≤ daysUntilReturn now expectedReturnDate && daysUntilReturn now expectedReturnDate ≤ 3

/-- A concrete proposal builder used by witnesses and counterexamples. -/
def mkProposal (id clientName : JSString) (sentDate value : Int)
    (status : ProposalStatus) (lastFollowUp : Int)
    (expectedReturnDate : Option Int) : Proposal :=
  { id := id, clientName := clientName, sentDate := sentDate, value := value,
    status := status, lastFollowUp := lastFollowUp,
    expectedReturnDate := expectedReturnDate, sentVia := none, notes := [] }

/-! ### Properties of the comparator -/

theorem localeCompare_antisymm (a b : JSString) : localeCompare a b = -(localeCompare b a) := by
  induction a generalizing b with
  | nil => cases b <;> simp [localeCompare]
  | cons x xs ih =>
    cases b with
    | nil => simp [localeCompare]
    | cons y ys =>
      simp only [localeCompare]
      split_ifs <;> first | omega | exact ih ys

theorem localeCompare_le_trans {a b c : JSString} (hab : localeCompare a b ≤ 0)
    (hbc : localeCompare b c ≤ 0) : localeCompare a c ≤ 0 := by
  induction a generalizing b c with
  | nil => cases c <;> simp [localeCompare]
  | cons x xs ih =>
    cases b with
    | nil => simp [localeCompare] at hab
    | cons y ys =>
      cases c with
      | nil => simp [localeCompare] at hbc
      | cons z zs =>
        simp only [localeCompare] at hab hbc ⊢
        split_ifs at hab hbc ⊢ <;> first | omega | exact ih hab hbc

theorem returnDateComparison_antisymm (x y : Option Int) :
    returnDateComparison x y = -(returnDateComparison y x) := by
  cases x <;> cases y <;> simp [returnDateComparison] <;> omega

theorem returnDateComparison_le_trans {x y z : Option Int}
    (hxy : returnDateComparison x y ≤ 0) (hyz : returnDateComparison y z ≤ 0) :
    returnDateComparison x z ≤ 0 := by
  cases x <;> cases y <;> cases z <;> simp [returnDateComparison] at * <;> omega

theorem proposalComparison_antisymm (f : SortField) (a b : Proposal) :
    proposalComparison f a b = -(proposalComparison f b a) := by
  cases f with
  | status => simp only [proposalComparison]; omega
  | lastFollowUp => simp only [proposalComparison]; omega
  | expectedReturnDate => exact returnDateComparison_antisymm _ _
  | value => simp only [proposalComparison]; omega
  | sentDate => simp only [proposalComparison]; omega
  | clientName => exact localeCompare_antisymm _ _

theorem proposalComparison_le_trans (f : SortField) {a b c : Proposal}
    (hab : proposalComparison f a b ≤ 0) (hbc : proposalComparison f b c ≤ 0) :
    proposalComparison f a c ≤ 0 := by
  cases f with
  | status => simp only [proposalComparison] at *; omega
  | lastFollowUp => simp only [proposalComparison] at *; omega
  | expectedReturnDate => exact returnDateComparison_le_trans hab hbc
  | value => simp only [proposalComparison] at *; omega
  | sentDate => simp only [proposalComparison] at *; omega
  | clientName => exact localeCompare_le_trans hab hbc

theorem signedComparison_antisymm (sf : Option SortField) (dir : SortDirection)
    (a b : Proposal) : signedComparison sf dir a b = -(signedComparison sf dir b a) := by
  cases sf with
  | none => simp [signedComparison]
  | some f =>
    cases dir <;> simp only [signedComparison] <;>
      rw [proposalComparison_antisymm f a b] <;> ring

theorem signedComparison_le_trans (sf : Option SortField) (dir : SortDirection)
    {a b c : Proposal} (hab : signedComparison sf dir a b ≤ 0)
    (hbc : signedComparison sf dir b c ≤ 0) : signedComparison sf dir a c ≤ 0 := by
  cases sf with
  | none => simp [signedComparison]
  | some f =>
    cases dir with
    | asc => exact proposalComparison_le_trans f hab hbc
    | desc =>
      simp only [signedComparison] at *
      have h1 : proposalComparison f b a ≤ 0 := by
        rw [proposalComparison_antisymm f b a]; omega
      have h2 : proposalComparison f c b ≤ 0 := by
        rw [proposalComparison_antisymm f c b]; omega
      have h3 : proposalComparison f c a ≤ 0 := proposalComparison_le_trans f h2 h1
      rw [proposalComparison_antisymm f a c]; omega

theorem signedComparison_total (sf : Option SortField) (dir : SortDirection)
    (a b : Proposal) : signedComparison sf dir a b ≤ 0 ∨ signedComparison sf dir b a ≤ 0 := by
  have h := signedComparison_antisymm sf dir a b
  omega

/-- The sorted list is pairwise ordered by the (non-positive) comparator. -/
theorem sortedProposals_pairwise (sf : Option SortField) (dir : SortDirection)
    (l : List Proposal) :
    (sortedProposals sf dir l).Pairwise (fun a b => signedComparison sf dir a b ≤ 0) := by
  have h := @List.sorted_mergeSort Proposal
    (fun a b => decide (signedComparison sf dir a b ≤ 0))
    (fun a b c hab hbc => by
      simp only [decide_eq_true_eq] at *
      exact signedComparison_le_trans sf dir hab hbc)
    (fun a b => by
      simp only [Bool.or_eq_true, decide_eq_true_eq]
      exact signedComparison_total sf dir a b)
    l
  exact h.imp (fun hab => by simpa using hab)

/-- The sorted list is a permutation of the input. -/
theorem sortedProposals_perm (sf : Option SortField) (dir : SortDirection)
    (l : List Proposal) : List.Perm (sortedProposals sf dir l) l :=
  List.mergeSort_perm l _

/-! ### Claim theorems: filtering, selection, deletion -/

/-- C1: a record survives the filter step iff its lowercased `clientName`
contains the lowercased search string, and each optional date-sent / value
bound, when present, is satisfied (`sentDate ≥ lower`, `sentDate ≤ upper`,
`value ≥ min`, `value ≤ max`); an absent bound excludes nothing.  In
particular, with all four bounds absent the filter keeps exactly the records
whose lowercased `clientName` contains the lowercased search string. -/
theorem C1_filter_characterization
    (searchTerm : JSString) (dateLo dateHi valueLo valueHi : Option Int)
    (proposals : List Proposal) (p : Proposal) :
    (p ∈ filteredProposals searchTerm (toDateInput dateLo) (toDateInput dateHi)
        (toNumInput valueLo) (toNumInput valueHi) proposals
      ↔ p ∈ proposals
        ∧ jsIncludes (toLowerCase p.clientName) (toLowerCase searchTerm) = true
        ∧ (∀ t ∈ dateLo, t ≤ p.sentDate) ∧ (∀ t ∈ dateHi, p.sentDate ≤ t)
        ∧ (∀ v ∈ valueLo, v ≤ p.value) ∧ (∀ v ∈ valueHi, p.value ≤ v))
    ∧ (p ∈ filteredProposals searchTerm DateInput.empty DateInput.empty
        NumInput.empty NumInput.empty proposals
      ↔ p ∈ proposals ∧ jsIncludes (toLowerCase p.clientName) (toLowerCase searchTerm) = true) := by
  constructor
  · rw [filteredProposals, List.mem_filter]
    cases dateLo <;> cases dateHi <;> cases valueLo <;> cases valueHi <;>
      simp [filterPred, toDateInput, toNumInput, DateInput.isTruthy, NumInput.isTruthy,
        DateInput.toTime, NumInput.toNumber, jsGe, jsLe, and_assoc]
  · rw [filteredProposals, List.mem_filter]
    simp [filterPred, DateInput.isTruthy, NumInput.isTruthy]

/-- C3 counterexample: with an empty search string, no date bounds, and the
non-numeric lower value bound (`Number(...) = NaN`), the filter drops a
record that the bound-absent filter keeps — the claim that a non-numeric
bound behaves as an absent bound is false on the code. -/
theorem C3_counterexample :
    filteredProposals [] DateInput.empty DateInput.empty NumInput.nan NumInput.empty
        [mkProposal ['1'] ['a'] 0 5 ProposalStatus.pending 0 none]
      ≠ filteredProposals [] DateInput.empty DateInput.empty NumInput.empty NumInput.empty
        [mkProposal ['1'] ['a'] 0 5 ProposalStatus.pending 0 none] := by
  decide

/-- C3 amended: a non-empty, non-numeric string supplied as a value bound is
truthy, so the bound is applied, and every comparison with its `NaN` value is
false — the filter step therefore excludes every record (rather than
behaving as if the bound were absent). -/
theorem C3_nan_bound_excludes_all
    (searchTerm : JSString) (dateStart dateEnd : DateInput) (other : NumInput)
    (proposals : List Proposal) :
    filteredProposals searchTerm dateStart dateEnd NumInput.nan other proposals = []
    ∧ filteredProposals searchTerm dateStart dateEnd other NumInput.nan proposals = [] := by
  constructor <;>
  · rw [filteredProposals, List.filter_eq_nil_iff]
    intro p _
    simp [filterPred, NumInput.isTruthy, NumInput.toNumber, jsGe, jsLe]

/-- C4 counterexample: an id selected on another page (`"x"`, carried by no
record of the current page) is removed by "select all" on the current page —
the claim that other-page selections survive is false on the code. -/
theorem C4_counterexample :
    (['x'] : JSString) ∈ ([['x']] : List JSString)
    ∧ (∀ q ∈ [mkProposal ['1'] ['a'] 0 5 ProposalStatus.pending 0 none], q.id ≠ (['x'] : JSString))
    ∧ (['x'] : JSString) ∉
        toggleSelectAll true [mkProposal ['1'] ['a'] 0 5 ProposalStatus.pending 0 none] [['x']] := by
  decide

/-- C4 amended: "select all" (checked) replaces the selection with exactly the
ids of the currently visible page — ids selected on other pages are
discarded, not preserved; unchecking clears the selection entirely. -/
theorem C4_select_all_replaces (page : List Proposal) (selectedIds : List JSString) :
    (∀ x, x ∈ toggleSelectAll true page selectedIds ↔ ∃ q ∈ page, q.id = x)
    ∧ toggleSelectAll false page selectedIds = [] := by
  constructor
  · intro x
    simp [toggleSelectAll]
  · simp [toggleSelectAll]

/-- C10: deleting by id keeps exactly the proposals whose id differs from the
given id, unchanged and in their original relative order (the result is a
sublist of the input); if no proposal carries the id, the collection is
unchanged. -/
theorem C10_delete_characterization (id : JSString) (proposals : List Proposal) :
    (∀ p, p ∈ handleDeleteProposal id proposals ↔ p ∈ proposals ∧ p.id ≠ id)
    ∧ List.Sublist (handleDeleteProposal id proposals) proposals
    ∧ ((∀ p ∈ proposals, p.id ≠ id) → handleDeleteProposal id proposals = proposals) := by
  refine ⟨fun p => ?_, ?_, fun h => ?_⟩
  · rw [handleDeleteProposal, List.mem_filter]
    simp
  · exact List.filter_sublist proposals
  · rw [handleDeleteProposal, List.filter_eq_self]
    intro p hp
    simpa using h p hp

/-! ### Claim theorems: pagination -/

/-- Natural ceiling division agrees with the exact rational ceiling. -/
theorem natCeilDiv_cast (d n : Nat) (hn : 0 < n) :
    (((d + (n - 1)) / n : Nat) : Int) = ⌈(d : ℚ) / (n : ℚ)⌉ := by
  have hq := (Nat.div_add_mod (d + (n - 1)) n).symm
  set q := (d + (n - 1)) / n with hqdef
  set r := (d + (n - 1)) % n with hrdef
  have hr : r < n := Nat.mod_lt _ hn
  have h1 : d ≤ n * q := by omega
  have h2 : n * q < d + n := by omega
  have hnq : (0 : ℚ) < (n : ℚ) := by exact_mod_cast hn
  rw [eq_comm, Int.ceil_eq_iff]
  constructor
  · rw [lt_div_iff₀ hnq]
    have h2q : ((n * q : Nat) : ℚ) < (d : ℚ) + (n : ℚ) := by exact_mod_cast h2
    push_cast at h2q ⊢
    nlinarith [h2q]
  · rw [div_le_iff₀ hnq]
    have h1q : (d : ℚ) ≤ ((n * q : Nat) : ℚ) := by exact_mod_cast h1
    push_cast at h1q ⊢
    nlinarith [h1q]

/-- C2: with page size `k` and 1-indexed page `p`, the paginate step returns
exactly the records at indices `[(p-1)*k, p*k)` of the filtered-and-sorted
sequence (position `i` of the page is position `(p-1)*k + i` of the sequence,
and only positions `i < k` exist), and the reported page count is the exact
ceiling `⌈n / k⌉`.  Concretely, for 250 records and page size 100: page 1 is
positions 0–99 (100 records), page 3 is positions 200–249 (50 records), and
the page count is 3. -/
theorem C2_pagination (k p : Nat) (hk : 0 < k) (hp : 1 ≤ p) (xs : List Proposal) :
    (∀ i : Nat, (paginatedProposals k p xs)[i]?
        = if i < k then xs[(p - 1) * k + i]? else none)
    ∧ ((totalPages k xs.length : Int) = ⌈(xs.length : ℚ) / (k : ℚ)⌉)
    ∧ (xs.length = 250 → k = 100 →
        (paginatedProposals k 1 xs).length = 100
        ∧ (∀ i : Nat, (paginatedProposals k 1 xs)[i]? = if i < 100 then xs[i]? else none)
        ∧ (paginatedProposals k 3 xs).length = 50
        ∧ (∀ i : Nat, (paginatedProposals k 3 xs)[i]? = if i < 50 then xs[200 + i]? else none)
        ∧ totalPages k xs.length = 3) := by
  have hslice : ∀ (page : Nat) (i : Nat), (paginatedProposals k page xs)[i]?
      = if i < k then xs[(page - 1) * k + i]? else none := by
    intro page i
    rw [paginatedProposals]
    by_cases hik : i < k
    · rw [if_pos hik, List.getElem?_take_of_lt hik, List.getElem?_drop]
    · rw [if_neg hik]
      apply List.getElem?_eq_none
      have := List.length_take k (xs.drop ((page - 1) * k))
      omega
  refine ⟨hslice p, natCeilDiv_cast xs.length k hk, fun hlen hk100 => ?_⟩
  subst hk100
  have hlen1 : (paginatedProposals 100 1 xs).length = 100 := by
    rw [paginatedProposals, List.length_take, List.length_drop]
    omega
  have hlen3 : (paginatedProposals 100 3 xs).length = 50 := by
    rw [paginatedProposals, List.length_take, List.length_drop]
    omega
  refine ⟨hlen1, fun i => ?_, hlen3, fun i => ?_, ?_⟩
  · simpa using hslice 1 i
  · have h := hslice 3 i
    by_cases hik : i < 100
    · by_cases hi50 : i < 50
      · rw [h, if_pos hik, if_pos hi50]
      · rw [h, if_pos hik, if_neg hi50]
        apply List.getElem?_eq_none
        omega
    · rw [h, if_neg hik, if_neg (by omega)]
  · rw [totalPages, hlen]

/-! ### Claim theorems: alert classification -/

/-- Integer ceiling division (by a positive divisor) agrees with the exact
rational ceiling. -/
theorem intCeilDiv_cast (a : Int) (n : Nat) (hn : 0 < n) :
    (a + ((n : Int) - 1)) / (n : Int) = ⌈(a : ℚ) / (n : ℚ)⌉ := by
  have hn' : (0 : Int) < (n : Int) := by exact_mod_cast hn
  have hq := Int.ediv_add_emod (a + ((n : Int) - 1)) (n : Int)
  set q := (a + ((n : Int) - 1)) / (n : Int) with hqdef
  set r := (a + ((n : Int) - 1)) % (n : Int) with hrdef
  have hr0 : 0 ≤ r := Int.emod_nonneg _ (by omega)
  have hr1 : r < (n : Int) := Int.emod_lt_of_pos _ hn'
  have h1 : a ≤ (n : Int) * q := by omega
  have h2 : (n : Int) * q < a + (n : Int) := by omega
  have hnq : (0 : ℚ) < (n : ℚ) := by exact_mod_cast hn
  rw [eq_comm, Int.ceil_eq_iff]
  constructor
  · rw [lt_div_iff₀ hnq]
    have h2q : ((n : Int) * q : ℚ) < (a : ℚ) + (n : ℚ) := by exact_mod_cast h2
    push_cast at h2q ⊢
    nlinarith [h2q]
  · rw [div_le_iff₀ hnq]
    have h1q : (a : ℚ) ≤ ((n : Int) * q : ℚ) := by exact_mod_cast h1
    push_cast at h1q ⊢
    nlinarith [h1q]

/-- C7: the follow-up alert is raised exactly when the record is `pending` and
`ceil(|now - lastFollowUp| / 1 day) > 7` (times in milliseconds, one day =
86 400 000 ms); in particular a pending record whose `lastFollowUp` is exactly
8 days old alerts, and one exactly 7 days old does not. -/
theorem C7_needs_follow_up (today : Int) (p : Proposal) :
    (needsFollowUp today p = true
      ↔ p.status = ProposalStatus.pending
        ∧ (7 : Int) < ⌈|((today - p.lastFollowUp : Int) : ℚ)| / 86400000⌉)
    ∧ needsFollowUp today
        (mkProposal ['f'] ['c'] 0 0 ProposalStatus.pending (today - 8 * 86400000) none) = true
    ∧ needsFollowUp today
        (mkProposal ['f'] ['c'] 0 0 ProposalStatus.pending (today - 7 * 86400000) none) = false := by
  refine ⟨?_, ?_, ?_⟩
  · have hbridge := natCeilDiv_cast ((today - p.lastFollowUp).natAbs) 86400000 (by norm_num)
    have habs : (((today - p.lastFollowUp).natAbs : ℚ)) = |((today - p.lastFollowUp : Int) : ℚ)| := by
      push_cast [Int.cast_natAbs]
      rfl
    rw [habs] at hbridge
    norm_num at hbridge
    rw [needsFollowUp]
    simp only [Bool.and_eq_true, beq_iff_eq, decide_eq_true_eq, getDaysSinceFollowUp]
    push_cast
    have habs2 : |today - p.lastFollowUp| = ((today - p.lastFollowUp).natAbs : Int) :=
      Int.abs_eq_natAbs _
    constructor
    · rintro ⟨hs, hd⟩
      exact ⟨hs, by omega⟩
    · rintro ⟨hs, hd⟩
      exact ⟨hs, by omega⟩
  · have h8 : (today - (today - 8 * 86400000)).natAbs = 691200000 := by
      have h : today - (today - 8 * 86400000) = (691200000 : Int) := by ring
      rw [h]
      rfl
    simp [needsFollowUp, getDaysSinceFollowUp, mkProposal, h8]
  · have h7 : (today - (today - 7 * 86400000)).natAbs = 604800000 := by
      have h : today - (today - 7 * 86400000) = (604800000 : Int) := by ring
      rw [h]
      rfl
    simp [needsFollowUp, getDaysSinceFollowUp, mkProposal, h7]

/-- C8: for a present `expectedReturnDate`, the projected
`daysUntilReturn` is the exact ceiling `⌈(expectedReturnDate - now)/1 day⌉`,
`isOverdue` holds exactly when it is negative and `isReturnSoon` exactly when
it lies in `[0, 3]`; concretely, one day past is overdue, two days ahead is
"return soon", and ten days ahead is neither. -/
theorem C8_return_classification (now ret : Int) :
    (daysUntilReturn now ret = ⌈((ret - now : Int) : ℚ) / 86400000⌉)
    ∧ (isOverdue now ret = true ↔ daysUntilReturn now ret < 0)
    ∧ (isReturnSoon now ret = true
        ↔ 0 ≤ daysUntilReturn now ret ∧ daysUntilReturn now ret ≤ 3)
    ∧ isOverdue now (now - 86400000) = true
    ∧ isReturnSoon now (now + 2 * 86400000) = true
    ∧ isOverdue now (now + 10 * 86400000) = false
    ∧ isReturnSoon now (now + 10 * 86400000) = false := by
  have hbridge : ∀ r : Int, daysUntilReturn now r = ⌈((r - now : Int) : ℚ) / 86400000⌉ := by
    intro r
    have h := intCeilDiv_cast (r - now) 86400000 (by norm_num)
    rw [daysUntilReturn]
    push_cast at h ⊢
    omega
  have hval : ∀ d : Int, daysUntilReturn now (now + d) = (d + 86399999) / 86400000 := by
    intro d
    rw [daysUntilReturn]
    ring_nf
  refine ⟨hbridge ret, ?_, ?_, ?_, ?_, ?_, ?_⟩
  · simp [isOverdue]
  · simp [isReturnSoon]
  · have h := hval (-86400000)
    rw [isOverdue, show now - 86400000 = now + (-86400000) by ring, h]
    decide
  · have h := hval (2 * 86400000)
    rw [isReturnSoon, show now + 2 * 86400000 = now + 2 * 86400000 by ring, h]
    decide
  · have h := hval (10 * 86400000)
    rw [isOverdue, h]
    decide
  · have h := hval (10 * 86400000)
    rw [isReturnSoon, h]
    decide

/-! ### Claim theorems: sorting -/

/-- The sorted list is pairwise ordered by the Boolean comparator predicate
that `sortedProposals` passes to the stable sort. -/
theorem sortedProposals_pairwise_bool (sf : Option SortField) (dir : SortDirection)
    (l : List Proposal) :
    (sortedProposals sf dir l).Pairwise
      (fun a b => (decide (signedComparison sf dir a b ≤ 0)) = true) := by
  have h := sortedProposals_pairwise sf dir l
  exact h.imp (fun hab => by simpa using hab)

/-- C6: sorting ascending by `expectedReturnDate` places every record with an
absent date after every record with a present date (along the sorted order,
once a record with an absent date appears, all later records also have absent
dates). -/
theorem C6_absent_return_dates_last (xs : List Proposal) :
    (sortedProposals (some SortField.expectedReturnDate) SortDirection.asc xs).Pairwise
      (fun a b => a.expectedReturnDate = none → b.expectedReturnDate = none) := by
  have h := sortedProposals_pairwise (some SortField.expectedReturnDate) SortDirection.asc xs
  refine h.imp ?_
  intro a b hle ha
  simp only [signedComparison, proposalComparison] at hle
  rw [ha] at hle
  cases hb : b.expectedReturnDate with
  | none => rfl
  | some y =>
    rw [hb] at hle
    simp [returnDateComparison] at hle

/-- C5: with the fixed rank `pending = 0, approved = 1, rejected = 2`, the
ascending status sort of three records carrying statuses
`[rejected, pending, approved]` yields them in order
`[pending, approved, rejected]`. -/
theorem C5_status_sort (a b c : Proposal)
    (ha : a.status = ProposalStatus.rejected) (hb : b.status = ProposalStatus.pending)
    (hc : c.status = ProposalStatus.approved) :
    sortedProposals (some SortField.status) SortDirection.asc [a, b, c] = [b, c, a] := by
  set R : Proposal → Proposal → Prop := fun x y => statusOrder x.status < statusOrder y.status
    with hR
  haveI : IsAntisymm Proposal R := ⟨fun x y h1 h2 => absurd (lt_trans h1 h2) (lt_irrefl _)⟩
  have hperm : List.Perm (sortedProposals (some SortField.status) SortDirection.asc [a, b, c])
      [b, c, a] := by
    refine (sortedProposals_perm _ _ _).trans ?_
    exact (List.Perm.swap b a [c]).trans ((List.Perm.swap c a []).cons b)
  have hne : ([a, b, c] : List Proposal).Pairwise
      (fun x y => statusOrder x.status ≠ statusOrder y.status) := by
    simp [ha, hb, hc, statusOrder]
  have hneSorted : (sortedProposals (some SortField.status) SortDirection.asc [a, b, c]).Pairwise
      (fun x y => statusOrder x.status ≠ statusOrder y.status) := by
    refine ((sortedProposals_perm (some SortField.status) SortDirection.asc
      [a, b, c]).pairwise_iff ?_).mpr hne
    intro x y hxy
    omega
  have hsorted : (sortedProposals (some SortField.status) SortDirection.asc [a, b, c]).Sorted R := by
    have hpw := (sortedProposals_pairwise (some SortField.status) SortDirection.asc
      [a, b, c]).and hneSorted
    refine hpw.imp ?_
    rintro x y ⟨h1, h2⟩
    simp only [signedComparison, proposalComparison] at h1
    simp only [hR]
    omega
  have htarget : ([b, c, a] : List Proposal).Sorted R := by
    simp [List.Sorted, hR, ha, hb, hc, statusOrder]
  exact List.eq_of_perm_of_sorted hperm hsorted htarget

/-- C9: on a collection with no ties in the chosen sort key (the comparator
never returns 0 between two of its records), the descending sort is exactly
the reverse of the ascending sort, and re-sorting an already sorted sequence
with the same key and direction leaves it unchanged. -/
theorem C9_sort_reverse_idempotent (f : SortField) (l : List Proposal)
    (h : l.Pairwise fun a b => proposalComparison f a b ≠ 0) :
    sortedProposals (some f) SortDirection.desc l
      = (sortedProposals (some f) SortDirection.asc l).reverse
    ∧ ∀ dir, sortedProposals (some f) dir (sortedProposals (some f) dir l)
        = sortedProposals (some f) dir l := by
  have hsym : ∀ {x y : Proposal}, proposalComparison f x y ≠ 0 → proposalComparison f y x ≠ 0 := by
    intro x y hxy
    have := proposalComparison_antisymm f x y
    omega
  constructor
  · set R : Proposal → Proposal → Prop := fun x y => proposalComparison f y x < 0 with hR
    haveI : IsAntisymm Proposal R := ⟨fun x y h1 h2 => by
      exfalso
      simp only [hR] at h1 h2
      have := proposalComparison_antisymm f x y
      omega⟩
    have hneA : (sortedProposals (some f) SortDirection.asc l).Pairwise
        (fun x y => proposalComparison f x y ≠ 0) :=
      ((sortedProposals_perm (some f) SortDirection.asc l).pairwise_iff
        (fun hxy => hsym hxy)).mpr h
    have hneD : (sortedProposals (some f) SortDirection.desc l).Pairwise
        (fun x y => proposalComparison f x y ≠ 0) :=
      ((sortedProposals_perm (some f) SortDirection.desc l).pairwise_iff
        (fun hxy => hsym hxy)).mpr h
    have hstrictA : (sortedProposals (some f) SortDirection.asc l).Pairwise
        (fun x y => proposalComparison f x y < 0) := by
      refine ((sortedProposals_pairwise (some f) SortDirection.asc l).and hneA).imp ?_
      rintro x y ⟨h1, h2⟩
      simp only [signedComparison] at h1
      omega
    have hstrictD : (sortedProposals (some f) SortDirection.desc l).Pairwise R := by
      refine ((sortedProposals_pairwise (some f) SortDirection.desc l).and hneD).imp ?_
      rintro x y ⟨h1, h2⟩
      simp only [signedComparison] at h1
      simp only [hR]
      have := proposalComparison_antisymm f x y
      omega
    have hrevA : (sortedProposals (some f) SortDirection.asc l).reverse.Pairwise R := by
      rw [List.pairwise_reverse]
      exact hstrictA.imp (fun hxy => hxy)
    have hperm : List.Perm (sortedProposals (some f) SortDirection.desc l)
        (sortedProposals (some f) SortDirection.asc l).reverse :=
      (sortedProposals_perm (some f) SortDirection.desc l).trans
        ((sortedProposals_perm (some f) SortDirection.asc l).symm.trans
          (List.reverse_perm _).symm)
    exact List.eq_of_perm_of_sorted hperm hstrictD hrevA
  · intro dir
    simp only [sortedProposals]
    exact List.mergeSort_of_sorted (sortedProposals_pairwise_bool (some f) dir l)

/-! ### Witnesses -/

theorem C2_pagination_witness :
    ((0 : Nat) < 100 ∧ (1 : Nat) ≤ 1)
    ∧ ((∀ i : Nat, (paginatedProposals 100 1 ([] : List Proposal))[i]?
          = if i < 100 then ([] : List Proposal)[(1 - 1) * 100 + i]? else none)
      ∧ ((totalPages 100 ([] : List Proposal).length : Int)
          = ⌈(([] : List Proposal).length : ℚ) / ((100 : Nat) : ℚ)⌉)
      ∧ (([] : List Proposal).length = 250 → (100 : Nat) = 100 →
          (paginatedProposals 100 1 ([] : List Proposal)).length = 100
          ∧ (∀ i : Nat, (paginatedProposals 100 1 ([] : List Proposal))[i]?
              = if i < 100 then ([] : List Proposal)[i]? else none)
          ∧ (paginatedProposals 100 3 ([] : List Proposal)).length = 50
          ∧ (∀ i : Nat, (paginatedProposals 100 3 ([] : List Proposal))[i]?
              = if i < 50 then ([] : List Proposal)[200 + i]? else none)
          ∧ totalPages 100 ([] : List Proposal).length = 3)) :=
  ⟨⟨by decide, by decide⟩, C2_pagination 100 1 (by decide) (by decide) []⟩

theorem C5_status_sort_witness :
    ((mkProposal ['a'] ['a'] 0 0 ProposalStatus.rejected 0 none).status = ProposalStatus.rejected
      ∧ (mkProposal ['b'] ['b'] 0 0 ProposalStatus.pending 0 none).status = ProposalStatus.pending
      ∧ (mkProposal ['c'] ['c'] 0 0 ProposalStatus.approved 0 none).status
          = ProposalStatus.approved)
    ∧ sortedProposals (some SortField.status) SortDirection.asc
        [mkProposal ['a'] ['a'] 0 0 ProposalStatus.rejected 0 none,
         mkProposal ['b'] ['b'] 0 0 ProposalStatus.pending 0 none,
         mkProposal ['c'] ['c'] 0 0 ProposalStatus.approved 0 none]
      = [mkProposal ['b'] ['b'] 0 0 ProposalStatus.pending 0 none,
         mkProposal ['c'] ['c'] 0 0 ProposalStatus.approved 0 none,
         mkProposal ['a'] ['a'] 0 0 ProposalStatus.rejected 0 none] :=
  ⟨⟨rfl, rfl, rfl⟩, C5_status_sort _ _ _ rfl rfl rfl⟩

theorem C9_sort_reverse_idempotent_witness :
    (([mkProposal ['a'] ['a'] 0 1 ProposalStatus.pending 0 none,
       mkProposal ['b'] ['b'] 0 2 ProposalStatus.pending 0 none] : List Proposal).Pairwise
        fun a b => proposalComparison SortField.value a b ≠ 0)
    ∧ (sortedProposals (some SortField.value) SortDirection.desc
          [mkProposal ['a'] ['a'] 0 1 ProposalStatus.pending 0 none,
           mkProposal ['b'] ['b'] 0 2 ProposalStatus.pending 0 none]
        = (sortedProposals (some SortField.value) SortDirection.asc
            [mkProposal ['a'] ['a'] 0 1 ProposalStatus.pending 0 none,
             mkProposal ['b'] ['b'] 0 2 ProposalStatus.pending 0 none]).reverse
      ∧ ∀ dir, sortedProposals (some SortField.value) dir
            (sortedProposals (some SortField.value) dir
              [mkProposal ['a'] ['a'] 0 1 ProposalStatus.pending 0 none,
               mkProposal ['b'] ['b'] 0 2 ProposalStatus.pending 0 none])
          = sortedProposals (some SortField.value) dir
              [mkProposal ['a'] ['a'] 0 1 ProposalStatus.pending 0 none,
               mkProposal ['b'] ['b'] 0 2 ProposalStatus.pending 0 none]) :=
  ⟨by decide, C9_sort_reverse_idempotent SortField.value _ (by decide)⟩
